import Mathlib

/-!
# Verification of the office-space time-series sync/densify engine

Shallow embedding of the client-side time-series synchronization and
densification code of the `office-space` repository, together with proofs
and refutations of the specification's claims about it.

Conventions of the embedding:
* JS `number` values are modelled as `ℚ` where the code only performs
  field arithmetic and comparisons, and as `ℝ` (wrapped in an IEEE-style
  value domain) where the code applies `Math.log10`.
* `Date` objects are modelled by their observable fields
  (`getTime`, `getMonth`, `getDate`, `getHours`, `getMinutes`).
* A JS `Map` is modelled as an insertion-ordered association list:
  `set` on a present key overwrites in place, otherwise appends.
-/

namespace OfficeSpace

/-! ## JS `Map` semantics (insertion-ordered association list) -/

variable {κ α : Type} [DecidableEq κ]

/-- `Map.prototype.has`. -/
def jsHas (m : List (κ × α)) (k : κ) : Bool :=
  decide (k ∈ m.map Prod.fst)

/-- `Map.prototype.get` (first — and by the `set` invariant only — binding). -/
def jsGet : List (κ × α) → κ → Option α
  | [], _ => none
  | e :: rest, k => if e.1 = k then some e.2 else jsGet rest k

/-- `Map.prototype.set`: overwrite in place if the key is present
(keeping the key's original position), otherwise append. -/
def jsSet (m : List (κ × α)) (k : κ) (v : α) : List (κ × α) :=
  if k ∈ m.map Prod.fst then
    m.map (fun e => if e.1 = k then (k, v) else e)
  else
    m ++ [(k, v)]

/-! ## Timeline data points and `mergeData`
(`src/unnamed/part_001`, `VerticalTimeline`) -/

/-- One sensor reading as held by the vertical-timeline component:
`{ timestamp: Date, value: number, isNew?: boolean }`.
`timestamp` is identified with `timestamp.getTime()` (epoch milliseconds). -/
structure DataPoint where
  timestamp : ℤ
  value : ℚ
  isNew : Bool
deriving DecidableEq, Repr

/-- `new Map(existingPoints.map((p) => [p.timestamp.getTime(), p]))`:
inserting every entry in order via `set`. -/
def buildPointMap (points : List DataPoint) : List (ℤ × DataPoint) :=
  points.foldl (fun m p => jsSet m p.timestamp p) []

/-- The `newPoints.forEach` loop of `mergeData`: a new point is inserted
(with `isNew: true`) only when its timestamp key is not already present. -/
def insertNewPoints (m : List (ℤ × DataPoint)) (newPoints : List DataPoint) :
    List (ℤ × DataPoint) :=
  newPoints.foldl
    (fun m p =>
      if jsHas m p.timestamp then m
      else jsSet m p.timestamp { p with isNew := true })
    m

/-- Comparator `(a, b) => a.timestamp.getTime() - b.timestamp.getTime()`. -/
def tsLE (a b : DataPoint) : Prop := a.timestamp ≤ b.timestamp

instance : DecidableRel tsLE := fun a b =>
  inferInstanceAs (Decidable (a.timestamp ≤ b.timestamp))

instance : IsTotal DataPoint tsLE := ⟨fun a b => Int.le_total a.timestamp b.timestamp⟩

instance : IsTrans DataPoint tsLE := ⟨fun _ _ _ h h' => le_trans h h'⟩

/-- `mergeData` for one sensor (`src/unnamed/part_001`, lines 1159–1175):
build a `Map` keyed by `timestamp.getTime()` from the existing points,
insert each incoming point only if its key is absent, then return
`Array.from(pointMap.values())` sorted ascending by timestamp. -/
def mergeSeries (existing incoming : List DataPoint) : List DataPoint :=
  ((insertNewPoints (buildPointMap existing) incoming).map Prod.snd).insertionSort tsLE

/-- Strictly-increasing-timestamps invariant on a series. -/
def StrictlyIncreasing (l : List DataPoint) : Prop :=
  l.Pairwise (fun a b => a.timestamp < b.timestamp)

/-- Invariant of the point map: every binding binds a point whose timestamp
is its own key. -/
def KeysAligned (m : List (ℤ × DataPoint)) : Prop :=
  ∀ e ∈ m, e.2.timestamp = e.1

/-! ## The environmental-data hook (`src/src/views/layout.ts`) -/

/-- A JS `Date`, modelled by its observable accessors: `getTime()` in epoch
milliseconds together with the local calendar fields `getMonth()` (0-based),
`getDate()`, `getHours()`, `getMinutes()`. -/
structure JSDate where
  epochMs : ℤ
  month : ℕ
  day : ℕ
  hour : ℕ
  minute : ℕ
deriving DecidableEq, Repr

/-- `newDate.setDate(1)`: the calendar day becomes 1 and the epoch clock
moves back by `day - 1` whole days (for an in-range `day ≥ 1`). -/
def setDateTo1 (d : JSDate) : JSDate :=
  { d with day := 1, epochMs := d.epochMs - ((d.day : ℤ) - 1) * 86400000 }

/-- `EnvironmentalData`: `{ time: Date, value: number }`. -/
structure EnvironmentalData where
  time : JSDate
  value : ℚ
deriving DecidableEq, Repr

/-- Ordering used by `interpolated.sort((a, b) => a.time.getTime() - b.time.getTime())`. -/
def envLE (a b : EnvironmentalData) : Prop := a.time.epochMs ≤ b.time.epochMs

instance : DecidableRel envLE := fun a b =>
  inferInstanceAs (Decidable (a.time.epochMs ≤ b.time.epochMs))

instance : IsTotal EnvironmentalData envLE :=
  ⟨fun a b => Int.le_total a.time.epochMs b.time.epochMs⟩

instance : IsTrans EnvironmentalData envLE := ⟨fun _ _ _ h h' => le_trans h h'⟩

def sortByTime (l : List EnvironmentalData) : List EnvironmentalData :=
  l.insertionSort envLE

/-- `d.time.getDate() === 1 && d.time.getMonth() === 0`. -/
def isJan1 (e : EnvironmentalData) : Bool := e.time.day == 1 && e.time.month == 0

/-- `d.time.getDate() === 2 && d.time.getMonth() === 0`. -/
def isJan2 (e : EnvironmentalData) : Bool := e.time.day == 2 && e.time.month == 0

/-- The string key `` `${hours}:${minutes}` `` of `jan1Map`, which determines
and is determined by the (hour, minute) pair. -/
def timeKey (e : EnvironmentalData) : ℕ × ℕ := (e.time.hour, e.time.minute)

/-- The `while (nextIndex < length && value === 0) nextIndex++` scan of
`interpolateData`: the first strictly-later value that is nonzero. -/
def firstNonzero : List EnvironmentalData → Option ℚ
  | [] => none
  | x :: rest => if x.value = 0 then firstNonzero rest else some x.value

/-- The zero-filling loop of `interpolateData` over `nonJan1Data`, after its
first element: an element with value `0` that is not in the last position is
replaced by the mean of the previous (already updated, since the loop mutates
in place) value and the next original nonzero value, or carries the previous
value when no later nonzero value exists.  `prev` is the value of the
preceding element after its own update. -/
def fillZerosAux (prev : ℚ) : List EnvironmentalData → List EnvironmentalData
  | [] => []
  | [x] => [x]
  | x :: y :: rest =>
    if x.value = 0 then
      let newVal :=
        match firstNonzero (y :: rest) with
        | some nv => (prev + nv) / 2
        | none => prev
      { x with value := newVal } :: fillZerosAux newVal (y :: rest)
    else
      x :: fillZerosAux x.value (y :: rest)

/-- The whole zero-filling loop: the element at index 0 is never modified
(the loop requires `i > 0`). -/
def fillZeros : List EnvironmentalData → List EnvironmentalData
  | [] => []
  | x :: rest => x :: fillZerosAux x.value rest

/-- `interpolateData` (`src/src/views/layout.ts`, lines 268–330): January-1
entries are kept, missing (hour, minute) slots of January 1 are copied from
January 2 (re-dated to day 1) and the January-1 block is sorted
chronologically; all the remaining data follows in input order after the
interior-zero filling pass. -/
def interpolateData (data : List EnvironmentalData) : List EnvironmentalData :=
  if data = [] then []
  else
    let jan1Data := data.filter isJan1
    let jan2Data := data.filter isJan2
    let jan1Keys := jan1Data.map timeKey
    let headPart :=
      if jan1Data = [] then jan1Data
      else
        sortByTime (jan1Data ++
          (jan2Data.filter (fun e => decide (timeKey e ∉ jan1Keys))).map
            (fun e => ⟨setDateTo1 e.time, e.value⟩))
    let nonJan1 := data.filter (fun e => !isJan1 e)
    headPart ++ fillZeros nonJan1

/-- The `uniqueNewData` filter of `useEnvironmentalData` (lines 403–405):
drop every fetched row whose `time.getTime()` already occurs in the cache. -/
def uniqueNewData (cached fetched : List EnvironmentalData) : List EnvironmentalData :=
  fetched.filter (fun d =>
    decide (d.time.epochMs ∉ cached.map (fun c => c.time.epochMs)))

/-- `newData = [...cachedData, ...uniqueNewData]` (line 410). -/
def combineCached (cached fetched : List EnvironmentalData) : List EnvironmentalData :=
  cached ++ uniqueNewData cached fetched

/-- Result of `getFromStore`: a rejected promise, or a resolved value that is
either `undefined` (key absent) or the stored array. -/
inductive CacheReadResult where
  | failure
  | success (stored : Option (List EnvironmentalData))

/-- The consumer-visible outcome of one run of the hook's `fetchData` effect:
the `data`, `loading` and `error` state left behind, plus whether a full
(`fetchDataFromSupabase(column)`) or an incremental (`startTime`-bounded)
remote fetch was performed. -/
structure HookOutcome where
  data : List EnvironmentalData
  loading : Bool
  error : Bool
  didFullFetch : Bool
  didIncrementalFetch : Bool
deriving DecidableEq, Repr

/-- `Math.max(...cachedData.map((d) => d.time.getTime()))` for a nonempty list. -/
def maxEpoch : List EnvironmentalData → ℤ
  | [] => 0
  | x :: rest => rest.foldl (fun a d => max a d.time.epochMs) x.time.epochMs

/-- One run of `useEnvironmentalData`'s effect (`src/src/views/layout.ts`,
lines 373–438), with the remote store abstracted as a function from the
optional `startTime` cutoff (epoch ms) to the fetched rows (assumed to
succeed — the claims under study concern cache failures, not network ones):
* if `initDB` rejected, `db` stays `null` and `fetchData` returns before its
  `try` block: no fetch, `loading` remains `true`;
* if `getFromStore` rejects, control jumps to `catch`: error, no fetch;
* a nonempty cache triggers an incremental fetch from `latest − 5 min`,
  appending only rows with unseen timestamps; a failing `putInStore` jumps to
  `catch` before `setData`, so the combined data is dropped;
* an absent or empty cache triggers the full fetch, with the same
  put-before-set behaviour. -/
def runHook (dbOpens : Bool) (cacheRead : CacheReadResult)
    (remote : Option ℤ → List EnvironmentalData) (putOk : Bool) : HookOutcome :=
  if !dbOpens then ⟨[], true, false, false, false⟩
  else
    match cacheRead with
    | .failure => ⟨[], false, true, false, false⟩
    | .success stored =>
      let cached := stored.getD []
      if cached = [] then
        let processed := interpolateData (remote none)
        if putOk then ⟨processed, false, false, true, false⟩
        else ⟨[], false, true, true, false⟩
      else
        let cutoff := maxEpoch cached - 300000
        let fetched := remote (some cutoff)
        let uniqueNew := uniqueNewData cached fetched
        if uniqueNew = [] then ⟨cached, false, false, false, true⟩
        else
          let processed := interpolateData (combineCached cached fetched)
          if putOk then ⟨processed, false, false, false, true⟩
          else ⟨[], false, true, false, true⟩

/-! ## The densifier (`src/src/components/Visualization/utils.ts` and the
`Visualization` component's per-minute value computation) -/

/-- `entry.time.getHours() * 60 + entry.time.getMinutes()`. -/
def minuteOfDay (d : JSDate) : ℕ := d.hour * 60 + d.minute

/-- `dayData.forEach((entry) => minuteMap.set(minutes, entry.value))`. -/
def buildMinuteMap (dayData : List EnvironmentalData) : List (ℕ × ℚ) :=
  dayData.foldl (fun mm e => jsSet mm (minuteOfDay e.time) e.value) []

/-- `firstMinute`: fold of `Math.min` over the map's keys, starting from
`MINUTES_IN_DAY = 1440`. -/
def firstMinute (mm : List (ℕ × ℚ)) : ℕ := mm.foldl (fun a e => min a e.1) 1440

/-- `lastMinute`: fold of `Math.max` over the map's keys, starting from 0. -/
def lastMinute (mm : List (ℕ × ℚ)) : ℕ := mm.foldl (fun a e => max a e.1) 0

/-- The `while (beforeMinute >= firstMinute)` backward scan for the nearest
known value at or below the given minute. -/
def searchBack (mm : List (ℕ × ℚ)) (fm : ℕ) : ℕ → Option (ℕ × ℚ)
  | 0 =>
    if 0 < fm then none
    else
      match jsGet mm 0 with
      | some v => some (0, v)
      | none => none
  | k + 1 =>
    if k + 1 < fm then none
    else
      match jsGet mm (k + 1) with
      | some v => some (k + 1, v)
      | none => searchBack mm fm k

/-- The `while (afterMinute <= lastMinute)` forward scan for the nearest
known value at or above the given minute. -/
def searchFwd (mm : List (ℕ × ℚ)) (lm : ℕ) (k : ℕ) : Option (ℕ × ℚ) :=
  if lm < k then none
  else
    match jsGet mm k with
    | some v => some (k, v)
    | none => searchFwd mm lm (k + 1)
termination_by lm + 1 - k
decreasing_by omega

/-- The per-minute value of the `Visualization` voxel grid
(`src/src/components/Visualization/utils.ts`, lines 813–855): the real sample
if one exists at that minute, else linear interpolation between the nearest
known values before and after (weighted purely by elapsed minutes), else a
one-sided carry, else the midpoint of the global min/max of the whole series. -/
def valueAtMinute (mm : List (ℕ × ℚ)) (globalMin globalMax : ℚ) (minute : ℕ) : ℚ :=
  match jsGet mm minute with
  | some v => v
  | none =>
    let before := if minute = 0 then none else searchBack mm (firstMinute mm) (minute - 1)
    let after := searchFwd mm (lastMinute mm) (minute + 1)
    match before, after with
    | some (bm, bv), some (am, av) =>
      bv + (av - bv) * (((minute : ℚ) - (bm : ℚ)) / ((am : ℚ) - (bm : ℚ)))
    | some (_, bv), none => bv
    | none, some (_, av) => av
    | none, none => (globalMin + globalMax) / 2

/-- `getRange` (`src/src/components/Visualization/utils.ts`, lines 167–177):
fold `Math.min`/`Math.max` over all values, starting from `Infinity` (`⊤`)
and `-Infinity` (`⊥`). -/
def getRange (data : List EnvironmentalData) : WithTop ℚ × WithBot ℚ :=
  data.foldl
    (fun acc e => (min acc.1 (e.value : WithTop ℚ), max acc.2 (e.value : WithBot ℚ)))
    (⊤, ⊥)

/-! ## Pagination decisions -/

/-- The post-fetch scheduling decision of `fetchSensorData`
(`src/unnamed/part_001`, lines 1239–1247): a preload of the next page is set
up only when the fetch was nonempty (`if (!rawData || rawData.length === 0)
return` fires first), returned exactly `pageSize` rows, and was not itself a
preload. -/
def schedulesFurtherPage (numRows pageSize : ℕ) (isPreload : Bool) : Bool :=
  if numRows = 0 then false
  else numRows == pageSize && !isPreload

/-- The `hasMore` update of one iteration of `fetchDataFromSupabase`'s loop
(`src/src/views/layout.ts`, lines 344–368): stop on an empty page, stop when
fewer than `pageSize` rows came back, otherwise request a further page. -/
def continuesPaging (numRows pageSize : ℕ) : Bool :=
  if numRows = 0 then false
  else if numRows < pageSize then false
  else true

/-! ## The normalizer (`src/unnamed/part_001`, lines 1088–1132)

JS `number` arithmetic including `NaN` and the infinities, as exercised by
`normalizeValue` (`-0` is identified with `0`). -/

inductive JSNum where
  | nan
  | posInf
  | negInf
  | num (x : ℝ)

/-- `Math.min` (NaN-propagating). -/
noncomputable def jsMin : JSNum → JSNum → JSNum
  | .nan, _ => .nan
  | _, .nan => .nan
  | .negInf, _ => .negInf
  | _, .negInf => .negInf
  | .posInf, b => b
  | a, .posInf => a
  | .num a, .num b => .num (min a b)

/-- `Math.max` (NaN-propagating). -/
noncomputable def jsMax : JSNum → JSNum → JSNum
  | .nan, _ => .nan
  | _, .nan => .nan
  | .posInf, _ => .posInf
  | _, .posInf => .posInf
  | .negInf, b => b
  | a, .negInf => a
  | .num a, .num b => .num (max a b)

/-- IEEE subtraction. -/
def jsSub : JSNum → JSNum → JSNum
  | .nan, _ => .nan
  | _, .nan => .nan
  | .posInf, .posInf => .nan
  | .posInf, _ => .posInf
  | .negInf, .negInf => .nan
  | .negInf, _ => .negInf
  | .num _, .posInf => .negInf
  | .num _, .negInf => .posInf
  | .num a, .num b => .num (a - b)

/-- IEEE multiplication. -/
noncomputable def jsMul : JSNum → JSNum → JSNum
  | .nan, _ => .nan
  | _, .nan => .nan
  | .posInf, .posInf => .posInf
  | .posInf, .negInf => .negInf
  | .negInf, .posInf => .negInf
  | .negInf, .negInf => .posInf
  | .posInf, .num b => if b = 0 then .nan else if 0 < b then .posInf else .negInf
  | .negInf, .num b => if b = 0 then .nan else if 0 < b then .negInf else .posInf
  | .num a, .posInf => if a = 0 then .nan else if 0 < a then .posInf else .negInf
  | .num a, .negInf => if a = 0 then .nan else if 0 < a then .negInf else .posInf
  | .num a, .num b => .num (a * b)

/-- IEEE division (divisor `0` is `+0`). -/
noncomputable def jsDiv : JSNum → JSNum → JSNum
  | .nan, _ => .nan
  | _, .nan => .nan
  | .posInf, .posInf => .nan
  | .posInf, .negInf => .nan
  | .negInf, .posInf => .nan
  | .negInf, .negInf => .nan
  | .posInf, .num b => if 0 ≤ b then .posInf else .negInf
  | .negInf, .num b => if 0 ≤ b then .negInf else .posInf
  | .num _, .posInf => .num 0
  | .num _, .negInf => .num 0
  | .num a, .num b =>
    if b = 0 then (if a = 0 then .nan else if 0 < a then .posInf else .negInf)
    else .num (a / b)

/-- `Math.log10` on an actual number: `NaN` below 0, `-Infinity` at 0. -/
noncomputable def log10R (x : ℝ) : JSNum :=
  if x < 0 then .nan else if x = 0 then .negInf else .num (Real.logb 10 x)

/-- `Math.log10`. -/
noncomputable def jsLog10 : JSNum → JSNum
  | .nan => .nan
  | .posInf => .posInf
  | .negInf => .nan
  | .num x => log10R x

/-- Which of the mutually exclusive `sensorId.includes(...)` branches of
`normalizeValue` fires: `"gas"`, `"lux"`, `"uv"`, the
accel/gyro/mag/roll/pitch/yaw family, or the default branch. -/
inductive SensorKind where
  | gas
  | lux
  | uv
  | motion
  | other
deriving DecidableEq, Repr

/-- `normalizeValue` (`src/unnamed/part_001`, lines 1088–1132).  The input is
`none` for `null`/`undefined` (the `value == null` guard); `minVal`/`maxVal`
are the observed data min/max and `rangeLo`/`rangeHi` the sensor's physical
range (all actual numbers, as produced by the sensor configuration). -/
noncomputable def normalizeValue (value : Option JSNum) (minVal maxVal : ℝ)
    (rangeLo rangeHi : ℝ) (kind : SensorKind) : JSNum :=
  match value with
  | none => .num 0
  | some v =>
    let clamped := jsMax (.num rangeLo) (jsMin (.num rangeHi) v)
    match kind with
    | .gas =>
      let logValue := jsLog10 (jsMax (.num 0.1) clamped)
      let logMin := log10R (max 0.1 minVal)
      let logMax := log10R maxVal
      jsMax (.num 0) (jsMin (.num 100)
        (jsMul (jsDiv (jsSub logValue logMin) (jsSub logMax logMin)) (.num 100)))
    | .lux =>
      let logValue := jsLog10 (jsMax (.num 1) clamped)
      let logMin := log10R (max 1 minVal)
      let logMax := log10R maxVal
      jsMax (.num 0) (jsMin (.num 100)
        (jsMul (jsDiv (jsSub logValue logMin) (jsSub logMax logMin)) (.num 100)))
    | .uv =>
      jsMax (.num 0) (jsMin (.num 100)
        (jsMul (jsDiv (jsSub clamped (.num minVal)) (.num (maxVal - minVal))) (.num 100)))
    | .motion =>
      jsMax (.num 0) (jsMin (.num 100)
        (jsMul (jsDiv (jsSub clamped (.num minVal)) (.num (maxVal - minVal))) (.num 100)))
    | .other =>
      jsMax (.num 0) (jsMin (.num 100)
        (jsMul (jsDiv (jsSub clamped (.num minVal)) (.num (maxVal - minVal))) (.num 100)))

/-- A sensor descriptor (observed `minVal`/`maxVal` for a given scale branch)
that is well-formed for display: the observed range is nondegenerate and, on
a logarithmic branch, its top lies above the branch's log-flooring epsilon. -/
def ValidDescriptor (kind : SensorKind) (minVal maxVal : ℝ) : Prop :=
  minVal < maxVal ∧ (kind = .gas → (0.1 : ℝ) < maxVal) ∧ (kind = .lux → (1 : ℝ) < maxVal)

/-- The purely real-valued normalization computed by `normalizeValue` on an
actual-number input under a valid descriptor. -/
noncomputable def normalizeR (kind : SensorKind) (minVal maxVal rangeLo rangeHi x : ℝ) : ℝ :=
  let c := max rangeLo (min rangeHi x)
  match kind with
  | .gas =>
    max 0 (min 100 ((Real.logb 10 (max 0.1 c) - Real.logb 10 (max 0.1 minVal)) /
      (Real.logb 10 maxVal - Real.logb 10 (max 0.1 minVal)) * 100))
  | .lux =>
    max 0 (min 100 ((Real.logb 10 (max 1 c) - Real.logb 10 (max 1 minVal)) /
      (Real.logb 10 maxVal - Real.logb 10 (max 1 minVal)) * 100))
  | _ => max 0 (min 100 ((c - minVal) / (maxVal - minVal) * 100))

/-! ## Lemmas about the JS map operations -/

section MapLemmas

variable {κ α : Type} [DecidableEq κ]

theorem jsHas_eq_true_iff (m : List (κ × α)) (k : κ) :
    jsHas m k = true ↔ k ∈ m.map Prod.fst := by
  simp [jsHas]

theorem jsSet_of_not_mem {m : List (κ × α)} {k : κ} (v : α) (h : k ∉ m.map Prod.fst) :
    jsSet m k v = m ++ [(k, v)] := by
  simp [jsSet, h]

theorem jsSet_keys_of_mem {m : List (κ × α)} {k : κ} (v : α) (h : k ∈ m.map Prod.fst) :
    (jsSet m k v).map Prod.fst = m.map Prod.fst := by
  rw [jsSet, if_pos h, List.map_map]
  refine List.map_congr_left ?_
  intro e _
  by_cases he : e.1 = k <;> simp [he]

theorem jsSet_keys_nodup {m : List (κ × α)} {k : κ} (v : α)
    (h : (m.map Prod.fst).Nodup) : ((jsSet m k v).map Prod.fst).Nodup := by
  by_cases hk : k ∈ m.map Prod.fst
  · rw [jsSet_keys_of_mem v hk]; exact h
  · rw [jsSet_of_not_mem v hk]
    simp [List.nodup_append, h, hk]

end MapLemmas

/-! ## Lemmas about `mergeData` -/

theorem keysAligned_jsSet {m : List (ℤ × DataPoint)} (h : KeysAligned m)
    {k : ℤ} {q : DataPoint} (hq : q.timestamp = k) :
    KeysAligned (jsSet m k q) := by
  intro e he
  by_cases hk : k ∈ m.map Prod.fst
  · rw [jsSet, if_pos hk] at he
    obtain ⟨e', he', rfl⟩ := List.mem_map.mp he
    by_cases h' : e'.1 = k <;> simp [h', hq, h e' he']
  · rw [jsSet_of_not_mem _ hk] at he
    rcases List.mem_append.mp he with h' | h'
    · exact h e h'
    · simp only [List.mem_singleton] at h'
      subst h'
      exact hq

theorem buildPointMap_aligned (l : List DataPoint) : KeysAligned (buildPointMap l) := by
  suffices H : ∀ (acc : List (ℤ × DataPoint)), KeysAligned acc →
      KeysAligned (l.foldl (fun m p => jsSet m p.timestamp p) acc) from
    H [] (by intro e he; simp at he)
  induction l with
  | nil => intro acc h; exact h
  | cons p l ih =>
    intro acc h
    exact ih _ (keysAligned_jsSet h rfl)

theorem buildPointMap_keys_nodup (l : List DataPoint) :
    ((buildPointMap l).map Prod.fst).Nodup := by
  suffices H : ∀ (acc : List (ℤ × DataPoint)), (acc.map Prod.fst).Nodup →
      ((l.foldl (fun m p => jsSet m p.timestamp p) acc).map Prod.fst).Nodup from
    H [] (by simp)
  induction l with
  | nil => intro acc h; exact h
  | cons p l ih =>
    intro acc h
    exact ih _ (jsSet_keys_nodup _ h)

/-- Building the point map from a series with pairwise-distinct timestamps
just pairs every point with its timestamp, in order. -/
theorem foldl_jsSet_of_nodup (l : List DataPoint) (acc : List (ℤ × DataPoint))
    (hd : (l.map (·.timestamp)).Nodup)
    (hdisj : ∀ p ∈ l, p.timestamp ∉ acc.map Prod.fst) :
    l.foldl (fun m p => jsSet m p.timestamp p) acc =
      acc ++ l.map (fun p => (p.timestamp, p)) := by
  induction l generalizing acc with
  | nil => simp
  | cons p l ih =>
    rw [List.foldl_cons, jsSet_of_not_mem _ (hdisj p (List.mem_cons_self p l))]
    rw [List.map_cons, List.nodup_cons] at hd
    rw [ih _ hd.2]
    · simp
    · intro q hq
      simp only [List.map_append, List.map_cons, List.map_nil, List.mem_append,
        List.mem_singleton]
      rintro (hmem | hmem)
      · exact hdisj q (List.mem_cons_of_mem p hq) hmem
      · exact hd.1 (hmem ▸ List.mem_map_of_mem (·.timestamp) hq)

theorem buildPointMap_of_nodup (l : List DataPoint)
    (hd : (l.map (·.timestamp)).Nodup) :
    buildPointMap l = l.map (fun p => (p.timestamp, p)) := by
  have := foldl_jsSet_of_nodup l [] hd (by simp)
  simpa [buildPointMap] using this

theorem insertNewPoints_cons (m : List (ℤ × DataPoint)) (p : DataPoint)
    (l : List DataPoint) :
    insertNewPoints m (p :: l) =
      insertNewPoints
        (if jsHas m p.timestamp then m
         else m ++ [(p.timestamp, { p with isNew := true })]) l := by
  simp only [insertNewPoints, List.foldl_cons]
  congr 1
  by_cases h : jsHas m p.timestamp
  · simp [h]
  · rw [if_neg h, if_neg h, jsSet_of_not_mem]
    exact fun hmem => h ((jsHas_eq_true_iff m p.timestamp).mpr hmem)

/-- The incoming-points loop only appends: the existing bindings are kept
verbatim, and every appended binding carries an incoming point (with `isNew`
set) at a key that was not present in the original map. -/
theorem insertNewPoints_spec (l : List DataPoint) (m : List (ℤ × DataPoint)) :
    ∃ extra, insertNewPoints m l = m ++ extra ∧
      ∀ e ∈ extra, e.1 ∉ m.map Prod.fst ∧
        ∃ p ∈ l, e = (p.timestamp, { p with isNew := true }) := by
  induction l generalizing m with
  | nil => exact ⟨[], by simp [insertNewPoints], by simp⟩
  | cons p l ih =>
    by_cases h : jsHas m p.timestamp
    · obtain ⟨extra, heq, hprop⟩ := ih m
      refine ⟨extra, ?_, ?_⟩
      · rw [insertNewPoints_cons, if_pos h]
        exact heq
      · intro e he
        obtain ⟨h1, q, hq, h2⟩ := hprop e he
        exact ⟨h1, q, List.mem_cons_of_mem p hq, h2⟩
    · obtain ⟨extra, heq, hprop⟩ := ih (m ++ [(p.timestamp, { p with isNew := true })])
      refine ⟨(p.timestamp, { p with isNew := true }) :: extra, ?_, ?_⟩
      · rw [insertNewPoints_cons, if_neg h, heq]
        simp
      · intro e he
        rcases List.mem_cons.mp he with rfl | he'
        · refine ⟨fun hmem => h ((jsHas_eq_true_iff m p.timestamp).mpr hmem), ?_⟩
          exact ⟨p, List.mem_cons_self p l, rfl⟩
        · obtain ⟨h1, q, hq, h2⟩ := hprop e he'
          refine ⟨fun hmem => h1 ?_, q, List.mem_cons_of_mem p hq, h2⟩
          simp [hmem]

theorem insertNewPoints_keys_sub (l : List DataPoint) (m : List (ℤ × DataPoint)) :
    m.map Prod.fst ⊆ (insertNewPoints m l).map Prod.fst := by
  obtain ⟨extra, heq, -⟩ := insertNewPoints_spec l m
  rw [heq]
  simp only [List.map_append]
  exact List.subset_append_left _ _

theorem insertNewPoints_aligned {m : List (ℤ × DataPoint)} (h : KeysAligned m)
    (l : List DataPoint) : KeysAligned (insertNewPoints m l) := by
  obtain ⟨extra, heq, hprop⟩ := insertNewPoints_spec l m
  rw [heq]
  intro e he
  rcases List.mem_append.mp he with h' | h'
  · exact h e h'
  · obtain ⟨-, p, -, rfl⟩ := hprop e h'
    rfl

theorem insertNewPoints_keys_nodup (l : List DataPoint) (m : List (ℤ × DataPoint))
    (h : (m.map Prod.fst).Nodup) :
    ((insertNewPoints m l).map Prod.fst).Nodup := by
  induction l generalizing m with
  | nil => simpa [insertNewPoints]
  | cons p l ih =>
    rw [insertNewPoints_cons]
    by_cases h' : jsHas m p.timestamp
    · rw [if_pos h']
      exact ih m h
    · rw [if_neg h']
      refine ih _ ?_
      have : p.timestamp ∉ m.map Prod.fst :=
        fun hmem => h' ((jsHas_eq_true_iff m p.timestamp).mpr hmem)
      simp [List.nodup_append, h, this]

theorem insertNewPoints_mem_keys (l : List DataPoint) (m : List (ℤ × DataPoint)) :
    ∀ p ∈ l, p.timestamp ∈ (insertNewPoints m l).map Prod.fst := by
  induction l generalizing m with
  | nil => intro p hp; simp at hp
  | cons q l ih =>
    intro p hp
    rw [insertNewPoints_cons]
    rcases List.mem_cons.mp hp with rfl | hp'
    · apply insertNewPoints_keys_sub l _
      by_cases h : jsHas m p.timestamp
      · rw [if_pos h]
        exact (jsHas_eq_true_iff m p.timestamp).mp h
      · rw [if_neg h]
        simp
    · exact ih _ p hp'

theorem insertNewPoints_no_op (l : List DataPoint) (m : List (ℤ × DataPoint))
    (h : ∀ p ∈ l, jsHas m p.timestamp = true) :
    insertNewPoints m l = m := by
  induction l with
  | nil => rfl
  | cons p l ih =>
    rw [insertNewPoints_cons, if_pos (h p (List.mem_cons_self p l))]
    exact ih fun q hq => h q (List.mem_cons_of_mem p hq)

theorem values_map_timestamp {m : List (ℤ × DataPoint)} (h : KeysAligned m) :
    (m.map Prod.snd).map (·.timestamp) = m.map Prod.fst := by
  induction m with
  | nil => rfl
  | cons e rest ih =>
    simp only [List.map_cons, List.cons.injEq]
    exact ⟨h e (List.mem_cons_self e rest),
      ih fun e' he' => h e' (List.mem_cons_of_mem e he')⟩

theorem mergeSeries_perm (existing incoming : List DataPoint) :
    List.Perm (mergeSeries existing incoming)
      ((insertNewPoints (buildPointMap existing) incoming).map Prod.snd) :=
  List.perm_insertionSort tsLE _

theorem mergeSeries_ts_nodup (existing incoming : List DataPoint) :
    ((mergeSeries existing incoming).map (·.timestamp)).Nodup := by
  have hA : KeysAligned (insertNewPoints (buildPointMap existing) incoming) :=
    insertNewPoints_aligned (buildPointMap_aligned existing) incoming
  have hN : ((insertNewPoints (buildPointMap existing) incoming).map Prod.fst).Nodup :=
    insertNewPoints_keys_nodup incoming _ (buildPointMap_keys_nodup existing)
  have hperm := (mergeSeries_perm existing incoming).map (·.timestamp)
  rw [values_map_timestamp hA] at hperm
  exact hperm.nodup_iff.mpr hN

theorem mergeSeries_sorted (existing incoming : List DataPoint) :
    List.Sorted tsLE (mergeSeries existing incoming) :=
  List.sorted_insertionSort tsLE _

theorem mergeSeries_strict (existing incoming : List DataPoint) :
    StrictlyIncreasing (mergeSeries existing incoming) := by
  have hs : (mergeSeries existing incoming).Pairwise tsLE :=
    mergeSeries_sorted existing incoming
  have hn := mergeSeries_ts_nodup existing incoming
  rw [List.Nodup, List.pairwise_map] at hn
  exact (hs.and hn).imp fun h => lt_of_le_of_ne h.1 h.2

theorem mergeSeries_mem_ts (existing incoming : List DataPoint) :
    ∀ p ∈ incoming, p.timestamp ∈ (mergeSeries existing incoming).map (·.timestamp) := by
  intro p hp
  have hA : KeysAligned (insertNewPoints (buildPointMap existing) incoming) :=
    insertNewPoints_aligned (buildPointMap_aligned existing) incoming
  have hperm := (mergeSeries_perm existing incoming).map (·.timestamp)
  rw [values_map_timestamp hA] at hperm
  exact hperm.mem_iff.mpr (insertNewPoints_mem_keys incoming _ p hp)

theorem mergeSeries_idem (existing incoming : List DataPoint) :
    mergeSeries (mergeSeries existing incoming) incoming =
      mergeSeries existing incoming := by
  set M := mergeSeries existing incoming with hM
  have hnod : (M.map (·.timestamp)).Nodup := mergeSeries_ts_nodup existing incoming
  have h1 : buildPointMap M = M.map (fun p => (p.timestamp, p)) :=
    buildPointMap_of_nodup M hnod
  have hkeys : (buildPointMap M).map Prod.fst = M.map (·.timestamp) := by
    rw [h1, List.map_map]
    rfl
  have h2 : ∀ p ∈ incoming, jsHas (buildPointMap M) p.timestamp = true := by
    intro p hp
    rw [jsHas_eq_true_iff, hkeys]
    exact mergeSeries_mem_ts existing incoming p hp
  show ((insertNewPoints (buildPointMap M) incoming).map Prod.snd).insertionSort tsLE = M
  rw [insertNewPoints_no_op incoming _ h2, h1, List.map_map]
  have hid : M.map (Prod.snd ∘ fun p => (p.timestamp, p)) = M := List.map_id M
  rw [hid]
  exact (mergeSeries_sorted existing incoming).insertionSort_eq

/-! ## Claims about the Merger -/

/-- C1, counterexample: merging the series `[0↦10, 1↦20]` with the incoming
batch `[1↦99, 2↦30]` does not yield `[0↦10, 1↦99, 2↦30]` — at the timestamp
collision `1` the merge keeps the existing value `20`, not the incoming `99`
(`mergeData` inserts only when `!pointMap.has(t)`). -/
theorem mergeData_collision_counterexample :
    (mergeSeries [⟨0, 10, false⟩, ⟨1, 20, false⟩]
        [⟨1, 99, false⟩, ⟨2, 30, false⟩]).map (fun p => (p.timestamp, p.value)) ≠
      [(0, 10), (1, 99), (2, 30)] := by decide

/-- C1, amended: `mergeData` resolves a timestamp collision by keeping the
EXISTING row's value: merging `[t1,v1],[t2,v2]` with incoming
`[t2,v2'],[t3,v3]` yields `[t1,v1],[t2,v2],[t3,v3]`, the genuinely new row
being inserted with its `isNew` flag set. -/
theorem mergeData_existing_wins (t1 t2 t3 : ℤ) (v1 v2 v2' v3 : ℚ)
    (a1 a2 b2 b3 : Bool) (h12 : t1 < t2) (h23 : t2 < t3) :
    mergeSeries [⟨t1, v1, a1⟩, ⟨t2, v2, a2⟩] [⟨t2, v2', b2⟩, ⟨t3, v3, b3⟩] =
      [⟨t1, v1, a1⟩, ⟨t2, v2, a2⟩, ⟨t3, v3, true⟩] := by
  have h13 : t1 < t3 := lt_trans h12 h23
  simp [mergeSeries, buildPointMap, insertNewPoints, jsSet, jsHas,
    List.insertionSort, List.orderedInsert, tsLE,
    h12.ne, h12.ne', h23.ne, h23.ne', h13.ne, h13.ne',
    le_of_lt h12, le_of_lt h23, le_of_lt h13]

theorem mergeData_existing_wins_witness :
    ((0 : ℤ) < 1 ∧ (1 : ℤ) < 2) ∧
      mergeSeries [⟨0, 10, false⟩, ⟨1, 20, false⟩] [⟨1, 99, false⟩, ⟨2, 30, false⟩] =
        [⟨0, 10, false⟩, ⟨1, 20, false⟩, ⟨2, 30, true⟩] :=
  ⟨⟨by decide, by decide⟩,
    mergeData_existing_wins 0 1 2 10 20 99 30 false false false false
      (by decide) (by decide)⟩

/-- C3, confirmed: merge is idempotent — for every series `S` and row batch
`B`, `merge(merge(S,B), B) = merge(S,B)`. -/
theorem mergeData_idempotent (S B : List DataPoint) :
    mergeSeries (mergeSeries S B) B = mergeSeries S B :=
  mergeSeries_idem S B

/-- C4, counterexample: not every merge performed by the repository produces
strictly increasing, duplicate-free timestamps.  The concatenation-based
merge of `useEnvironmentalData` (`newData = [...cachedData, ...uniqueNewData]`,
lines 403–410 of `src/src/views/layout.ts`) only filters out incoming
timestamps already cached; with a cached row at epoch 10000 and two fetched
rows both at epoch 3000, the combined series — and the `interpolateData`
output that is stored and delivered — is out of order and has a duplicate
timestamp. -/
theorem hookMerge_unsorted_counterexample :
    ¬ ((combineCached [⟨⟨10000, 2, 15, 1, 0⟩, 5⟩]
        [⟨⟨3000, 2, 15, 0, 50⟩, 7⟩, ⟨⟨3000, 2, 15, 0, 50⟩, 8⟩]).Pairwise
          (fun a b => a.time.epochMs < b.time.epochMs)) ∧
    ¬ ((interpolateData (combineCached [⟨⟨10000, 2, 15, 1, 0⟩, 5⟩]
        [⟨⟨3000, 2, 15, 0, 50⟩, 7⟩, ⟨⟨3000, 2, 15, 0, 50⟩, 8⟩])).Pairwise
          (fun a b => a.time.epochMs < b.time.epochMs)) := by
  constructor <;> decide

/-- C4, amended: every series produced by the map-based `mergeData` has
strictly increasing timestamps, each `time` value appearing exactly once;
the concatenation-based merge of `useEnvironmentalData` does not guarantee
this in general. -/
theorem mergeData_strictly_increasing (existing incoming : List DataPoint) :
    StrictlyIncreasing (mergeSeries existing incoming) :=
  mergeSeries_strict existing incoming

/-- C10, confirmed: merges never alter or remove previously held samples.
For `mergeData` (on an existing series with pairwise-distinct timestamps,
the Series invariant): every existing point survives verbatim, and every
other point of the result sits at a timestamp not previously present and
is an incoming point with its `isNew` flag set.  For the hook's
concatenation merge: every cached row survives verbatim, and every other
row of the combination is a fetched row at an uncached timestamp. -/
theorem merge_preserves_existing_samples (existing incoming : List DataPoint)
    (hd : (existing.map (·.timestamp)).Nodup)
    (cached fetched : List EnvironmentalData) :
    ((∀ p ∈ existing, p ∈ mergeSeries existing incoming) ∧
      ∀ q ∈ mergeSeries existing incoming,
        q ∈ existing ∨ (q.timestamp ∉ existing.map (·.timestamp) ∧
          ∃ p ∈ incoming, q = { p with isNew := true })) ∧
    ((∀ c ∈ cached, c ∈ combineCached cached fetched) ∧
      ∀ q ∈ combineCached cached fetched,
        q ∈ cached ∨ (q ∈ fetched ∧ q.time.epochMs ∉ cached.map (·.time.epochMs))) := by
  constructor
  · have hbuild : buildPointMap existing = existing.map (fun p => (p.timestamp, p)) :=
      buildPointMap_of_nodup existing hd
    obtain ⟨extra, heq, hprop⟩ := insertNewPoints_spec incoming (buildPointMap existing)
    have hid : existing.map (Prod.snd ∘ fun p => (p.timestamp, p)) = existing :=
      List.map_id existing
    have hvals : (insertNewPoints (buildPointMap existing) incoming).map Prod.snd =
        existing ++ extra.map Prod.snd := by
      rw [heq, List.map_append, hbuild, List.map_map, hid]
    have hperm := mergeSeries_perm existing incoming
    constructor
    · intro p hp
      apply hperm.mem_iff.mpr
      rw [hvals]
      exact List.mem_append_left _ hp
    · intro q hq
      have hmem := hperm.mem_iff.mp hq
      rw [hvals] at hmem
      rcases List.mem_append.mp hmem with h' | h'
      · exact Or.inl h'
      · right
        obtain ⟨e, he, rfl⟩ := List.mem_map.mp h'
        obtain ⟨hnotin, p, hp, rfl⟩ := hprop e he
        refine ⟨?_, p, hp, rfl⟩
        rw [hbuild, List.map_map] at hnotin
        exact hnotin
  · constructor
    · intro c hc
      exact List.mem_append_left _ hc
    · intro q hq
      rcases List.mem_append.mp hq with h' | h'
      · exact Or.inl h'
      · right
        have hf := List.mem_filter.mp h'
        exact ⟨hf.1, by simpa using hf.2⟩

theorem merge_preserves_existing_samples_witness :
    (([⟨0, 1, false⟩] : List DataPoint).map (·.timestamp)).Nodup ∧
      (⟨0, 1, false⟩ : DataPoint) ∈ mergeSeries [⟨0, 1, false⟩] [⟨5, 2, false⟩] :=
  ⟨by decide,
    (merge_preserves_existing_samples [⟨0, 1, false⟩] [⟨5, 2, false⟩]
      (by decide) [] []).1.1 _ (by decide)⟩

/-! ## Claims about the cache/sync behaviour of the hook -/

/-- C2, counterexample: a local-cache failure is not recovered by a full
remote fetch.  When `initDB` rejects (`dbOpens = false`), the hook performs
no remote fetch at all — even with data available remotely — delivers no
data, and stays in the loading state forever. -/
theorem cacheFailure_fatal_counterexample :
    runHook false (.success none) (fun _ => [⟨⟨0, 0, 5, 0, 0⟩, 5⟩]) true =
      ⟨[], true, false, false, false⟩ := by decide

/-- C2, amended: a cache failure is never treated as a cache miss.  If the
database cannot be opened the hook performs no fetch and stays loading; if
the cache read rejects the hook surfaces an error without fetching; if the
cache write fails after a successful full fetch the fetched data is dropped
and an error is surfaced.  Only a successfully read absent/empty cache
triggers the full remote fetch and delivers its (processed) data. -/
theorem cacheFailure_behaviour :
    (∀ cacheRead remote putOk,
      runHook false cacheRead remote putOk = ⟨[], true, false, false, false⟩) ∧
    (∀ remote putOk,
      runHook true .failure remote putOk = ⟨[], false, true, false, false⟩) ∧
    (∀ remote,
      runHook true (.success none) remote false = ⟨[], false, true, true, false⟩) ∧
    (∀ remote,
      runHook true (.success none) remote true =
        ⟨interpolateData (remote none), false, false, true, false⟩) :=
  ⟨fun _ _ _ => rfl, fun _ _ => rfl, fun _ => rfl, fun _ => rfl⟩

/-! ## Claims about pagination termination -/

/-- C9, counterexample: "returned exactly `limit` rows" is not the sole
signal, and the "if" direction of the claimed iff fails: a preload fetch
that returns exactly `pageSize = 24` rows schedules no further page
(`typedRawData.length === pageSize && !isPreload`). -/
theorem pagination_preload_counterexample :
    schedulesFurtherPage 24 24 true = false := by decide

/-- C9, amended: `fetchSensorData` schedules a further page iff the fetch
was nonempty, returned exactly `pageSize` rows, and was not itself a
preload; the `fetchDataFromSupabase` loop (whose pages never exceed
`pageSize` rows) continues iff the page held exactly `pageSize > 0` rows —
there the row count is the sole signal, so 10 rows for `pageSize = 24`
stops the pagination. -/
theorem pagination_termination :
    (∀ (n ps : ℕ) (preload : Bool),
      schedulesFurtherPage n ps preload = true ↔ (n = ps ∧ 0 < ps ∧ preload = false)) ∧
    (∀ n ps : ℕ, n ≤ ps → (continuesPaging n ps = true ↔ (n = ps ∧ 0 < ps))) := by
  constructor
  · intro n ps preload
    unfold schedulesFurtherPage
    rcases Nat.eq_zero_or_pos n with h | h
    · subst h
      simp
      omega
    · rw [if_neg (by omega)]
      cases preload
      · simp
        omega
      · simp
  · intro n ps hle
    unfold continuesPaging
    rcases Nat.eq_zero_or_pos n with h | h
    · subst h
      simp
      omega
    · rw [if_neg (by omega)]
      by_cases h' : n < ps
      · rw [if_pos h']
        simp
        omega
      · rw [if_neg h']
        simp
        omega

theorem pagination_termination_witness :
    ((10 : ℕ) ≤ 24) ∧ ¬ (continuesPaging 10 24 = true) :=
  ⟨by decide, fun h => by
    have := (pagination_termination.2 10 24 (by decide)).mp h
    omega⟩

/-! ## Lemmas about the densifier's neighbour searches -/

theorem jsGet_some_mem {mm : List (ℕ × ℚ)} {k : ℕ} {v : ℚ}
    (h : jsGet mm k = some v) : k ∈ mm.map Prod.fst := by
  induction mm with
  | nil => simp [jsGet] at h
  | cons e rest ih =>
    rw [jsGet] at h
    by_cases he : e.1 = k
    · simp [he]
    · rw [if_neg he] at h
      exact List.mem_cons_of_mem _ (ih h)

theorem foldl_min_le_init (l : List (ℕ × ℚ)) (init : ℕ) :
    l.foldl (fun a e => min a e.1) init ≤ init := by
  induction l generalizing init with
  | nil => exact le_rfl
  | cons e rest ih =>
    exact le_trans (ih (min init e.1)) (min_le_left _ _)

theorem foldl_min_le_mem {l : List (ℕ × ℚ)} {e : ℕ × ℚ} (he : e ∈ l) :
    ∀ init : ℕ, l.foldl (fun a x => min a x.1) init ≤ e.1 := by
  induction l with
  | nil => simp at he
  | cons a rest ih =>
    intro init
    rw [List.foldl_cons]
    rcases List.mem_cons.mp he with rfl | he'
    · exact le_trans (foldl_min_le_init rest _) (min_le_right _ _)
    · exact ih he' _

theorem firstMinute_le_mem {mm : List (ℕ × ℚ)} {k : ℕ} (h : k ∈ mm.map Prod.fst) :
    firstMinute mm ≤ k := by
  obtain ⟨e, he, rfl⟩ := List.mem_map.mp h
  exact foldl_min_le_mem he 1440

theorem le_foldl_max_init (l : List (ℕ × ℚ)) (init : ℕ) :
    init ≤ l.foldl (fun a e => max a e.1) init := by
  induction l generalizing init with
  | nil => exact le_rfl
  | cons e rest ih =>
    exact le_trans (le_max_left _ _) (ih (max init e.1))

theorem le_foldl_max_mem {l : List (ℕ × ℚ)} {e : ℕ × ℚ} (he : e ∈ l) :
    ∀ init : ℕ, e.1 ≤ l.foldl (fun a x => max a x.1) init := by
  induction l with
  | nil => simp at he
  | cons a rest ih =>
    intro init
    rw [List.foldl_cons]
    rcases List.mem_cons.mp he with rfl | he'
    · exact le_trans (le_max_right _ _) (le_foldl_max_init rest _)
    · exact ih he' _

theorem mem_le_lastMinute {mm : List (ℕ × ℚ)} {k : ℕ} (h : k ∈ mm.map Prod.fst) :
    k ≤ lastMinute mm := by
  obtain ⟨e, he, rfl⟩ := List.mem_map.mp h
  exact le_foldl_max_mem he 0

theorem searchBack_none (mm : List (ℕ × ℚ)) (fm : ℕ) :
    ∀ j, (∀ k, k ≤ j → jsGet mm k = none) → searchBack mm fm j = none := by
  intro j
  induction j with
  | zero =>
    intro h
    rw [searchBack]
    split
    · rfl
    · rw [h 0 le_rfl]
  | succ j ih =>
    intro h
    rw [searchBack]
    split
    · rfl
    · rw [h (j + 1) le_rfl]
      exact ih fun k hk => h k (le_trans hk (Nat.le_succ j))

theorem searchBack_found (mm : List (ℕ × ℚ)) (fm : ℕ) {kb : ℕ} {vb : ℚ}
    (hget : jsGet mm kb = some vb) (hfm : fm ≤ kb) :
    ∀ j, kb ≤ j → (∀ k, kb < k → k ≤ j → jsGet mm k = none) →
      searchBack mm fm j = some (kb, vb) := by
  intro j
  induction j with
  | zero =>
    intro hj _
    have hkb : kb = 0 := Nat.le_zero.mp hj
    subst hkb
    rw [searchBack, if_neg (by omega), hget]
  | succ j ih =>
    intro hj hgap
    rw [searchBack, if_neg (by omega)]
    by_cases hk : kb = j + 1
    · subst hk
      rw [hget]
    · rw [hgap (j + 1) (by omega) le_rfl]
      exact ih (by omega) fun k h1 h2 => hgap k h1 (le_trans h2 (Nat.le_succ j))

theorem searchFwd_none_fuel (mm : List (ℕ × ℚ)) (lm : ℕ) :
    ∀ n j, lm + 1 - j ≤ n → (∀ k, j ≤ k → k ≤ lm → jsGet mm k = none) →
      searchFwd mm lm j = none := by
  intro n
  induction n with
  | zero =>
    intro j hj _
    rw [searchFwd, if_pos (by omega)]
  | succ n ih =>
    intro j hj h
    rw [searchFwd]
    by_cases hlt : lm < j
    · rw [if_pos hlt]
    · rw [if_neg hlt, h j le_rfl (by omega)]
      exact ih (j + 1) (by omega) fun k hk1 hk2 => h k (by omega) hk2

theorem searchFwd_none (mm : List (ℕ × ℚ)) (lm j : ℕ)
    (h : ∀ k, j ≤ k → k ≤ lm → jsGet mm k = none) : searchFwd mm lm j = none :=
  searchFwd_none_fuel mm lm (lm + 1 - j) j le_rfl h

theorem searchFwd_found_fuel (mm : List (ℕ × ℚ)) (lm : ℕ) {ka : ℕ} {va : ℚ}
    (hget : jsGet mm ka = some va) (hlm : ka ≤ lm) :
    ∀ n j, lm + 1 - j ≤ n → j ≤ ka → (∀ k, j ≤ k → k < ka → jsGet mm k = none) →
      searchFwd mm lm j = some (ka, va) := by
  intro n
  induction n with
  | zero =>
    intro j hj hka _
    omega
  | succ n ih =>
    intro j hj hka hgap
    rw [searchFwd, if_neg (by omega)]
    by_cases hk : j = ka
    · subst hk
      rw [hget]
    · rw [hgap j le_rfl (by omega)]
      exact ih (j + 1) (by omega) (by omega) fun k h1 h2 => hgap k (by omega) h2

theorem searchFwd_found (mm : List (ℕ × ℚ)) (lm j : ℕ) {ka : ℕ} {va : ℚ}
    (hget : jsGet mm ka = some va) (hlm : ka ≤ lm) (hka : j ≤ ka)
    (hgap : ∀ k, j ≤ k → k < ka → jsGet mm k = none) :
    searchFwd mm lm j = some (ka, va) :=
  searchFwd_found_fuel mm lm hget hlm (lm + 1 - j) j le_rfl hka hgap

/-! ## Lemmas about `getRange` -/

theorem getRange_eq_foldl (data : List EnvironmentalData) :
    getRange data =
      (data.foldl (fun a e => min a (e.value : WithTop ℚ)) ⊤,
       data.foldl (fun a e => max a (e.value : WithBot ℚ)) ⊥) := by
  unfold getRange
  suffices H : ∀ (l : List EnvironmentalData) (acc : WithTop ℚ × WithBot ℚ),
      l.foldl (fun acc e =>
        (min acc.1 (e.value : WithTop ℚ), max acc.2 (e.value : WithBot ℚ))) acc =
        (l.foldl (fun a e => min a (e.value : WithTop ℚ)) acc.1,
         l.foldl (fun a e => max a (e.value : WithBot ℚ)) acc.2) from H data (⊤, ⊥)
  intro l
  induction l with
  | nil => intro acc; rfl
  | cons e rest ih => intro acc; exact ih _

theorem foldl_min_le_init_top (l : List EnvironmentalData) (init : WithTop ℚ) :
    l.foldl (fun a x => min a (x.value : WithTop ℚ)) init ≤ init := by
  induction l generalizing init with
  | nil => exact le_rfl
  | cons e rest ih =>
    exact le_trans (ih (min init (e.value : WithTop ℚ))) (min_le_left _ _)

theorem foldl_min_le_mem_top {l : List EnvironmentalData} {e : EnvironmentalData}
    (he : e ∈ l) :
    ∀ init : WithTop ℚ,
      l.foldl (fun a x => min a (x.value : WithTop ℚ)) init ≤ (e.value : WithTop ℚ) := by
  induction l with
  | nil => simp at he
  | cons a rest ih =>
    intro init
    rw [List.foldl_cons]
    rcases List.mem_cons.mp he with rfl | he'
    · exact le_trans (foldl_min_le_init_top rest _) (min_le_right _ _)
    · exact ih he' _

theorem foldl_min_attains_top (l : List EnvironmentalData) (init : WithTop ℚ) :
    l.foldl (fun a x => min a (x.value : WithTop ℚ)) init = init ∨
      ∃ e ∈ l, l.foldl (fun a x => min a (x.value : WithTop ℚ)) init =
        (e.value : WithTop ℚ) := by
  induction l generalizing init with
  | nil => exact Or.inl rfl
  | cons a rest ih =>
    rcases ih (min init (a.value : WithTop ℚ)) with h | ⟨e, he, h⟩
    · rw [List.foldl_cons, h]
      rcases min_choice init (a.value : WithTop ℚ) with h' | h'
      · exact Or.inl h'
      · exact Or.inr ⟨a, List.mem_cons_self a rest, h'⟩
    · exact Or.inr ⟨e, List.mem_cons_of_mem a he, by rw [List.foldl_cons, h]⟩

theorem le_foldl_max_init_bot (l : List EnvironmentalData) (init : WithBot ℚ) :
    init ≤ l.foldl (fun a x => max a (x.value : WithBot ℚ)) init := by
  induction l generalizing init with
  | nil => exact le_rfl
  | cons e rest ih =>
    exact le_trans (le_max_left _ _) (ih (max init (e.value : WithBot ℚ)))

theorem le_foldl_max_mem_bot {l : List EnvironmentalData} {e : EnvironmentalData}
    (he : e ∈ l) :
    ∀ init : WithBot ℚ,
      (e.value : WithBot ℚ) ≤ l.foldl (fun a x => max a (x.value : WithBot ℚ)) init := by
  induction l with
  | nil => simp at he
  | cons a rest ih =>
    intro init
    rw [List.foldl_cons]
    rcases List.mem_cons.mp he with rfl | he'
    · exact le_trans (le_max_right _ _) (le_foldl_max_init_bot rest _)
    · exact ih he' _

theorem foldl_max_attains_bot (l : List EnvironmentalData) (init : WithBot ℚ) :
    l.foldl (fun a x => max a (x.value : WithBot ℚ)) init = init ∨
      ∃ e ∈ l, l.foldl (fun a x => max a (x.value : WithBot ℚ)) init =
        (e.value : WithBot ℚ) := by
  induction l generalizing init with
  | nil => exact Or.inl rfl
  | cons a rest ih =>
    rcases ih (max init (a.value : WithBot ℚ)) with h | ⟨e, he, h⟩
    · rw [List.foldl_cons, h]
      rcases max_choice init (a.value : WithBot ℚ) with h' | h'
      · exact Or.inl h'
      · exact Or.inr ⟨a, List.mem_cons_self a rest, h'⟩
    · exact Or.inr ⟨e, List.mem_cons_of_mem a he, by rw [List.foldl_cons, h]⟩

/-! ## Claims about the densifier -/

/-- C5, confirmed: for every day map and every minute slot with no sample,
if the nearest preceding sample `(kb, vb)` and the nearest following sample
`(ka, va)` both exist within the day (no sample strictly between them and
the slot), the densifier assigns the linear interpolation of the two values
weighted by elapsed time; if only a preceding (resp. following) neighbour
exists, its value is carried forward (resp. backward).  The witness below
instantiates the claim's scenario: samples only at minutes 60 and 120 give
the interpolated value at minute 90 (and, by the carry conjuncts, carried
values outside the span). -/
theorem densifier_nearest_neighbour (mm : List (ℕ × ℚ)) (gmin gmax : ℚ) (m : ℕ)
    (hm : jsGet mm m = none) :
    (∀ kb vb ka va,
      jsGet mm kb = some vb → kb < m → (∀ k, k < m → kb < k → jsGet mm k = none) →
      jsGet mm ka = some va → m < ka → (∀ k, k < ka → m < k → jsGet mm k = none) →
      valueAtMinute mm gmin gmax m =
        vb + (va - vb) * (((m : ℚ) - (kb : ℚ)) / ((ka : ℚ) - (kb : ℚ)))) ∧
    (∀ kb vb,
      jsGet mm kb = some vb → kb < m → (∀ k, k < m → kb < k → jsGet mm k = none) →
      (∀ k, m < k → jsGet mm k = none) →
      valueAtMinute mm gmin gmax m = vb) ∧
    (∀ ka va,
      jsGet mm ka = some va → m < ka → (∀ k, k < ka → m < k → jsGet mm k = none) →
      (∀ k, k < m → jsGet mm k = none) →
      valueAtMinute mm gmin gmax m = va) := by
  refine ⟨?_, ?_, ?_⟩
  · intro kb vb ka va hgetb hbm hgapb hgeta hma hgapa
    have hm0 : m ≠ 0 := by omega
    have hfmb : firstMinute mm ≤ kb := firstMinute_le_mem (jsGet_some_mem hgetb)
    have hlma : ka ≤ lastMinute mm := mem_le_lastMinute (jsGet_some_mem hgeta)
    have hb : searchBack mm (firstMinute mm) (m - 1) = some (kb, vb) :=
      searchBack_found mm _ hgetb hfmb (m - 1) (by omega)
        (fun k h1 h2 => hgapb k (by omega) h1)
    have ha : searchFwd mm (lastMinute mm) (m + 1) = some (ka, va) :=
      searchFwd_found mm _ _ hgeta hlma (by omega)
        (fun k h1 h2 => hgapa k h2 (by omega))
    simp only [valueAtMinute, hm, if_neg hm0, hb, ha]
  · intro kb vb hgetb hbm hgapb habove
    have hm0 : m ≠ 0 := by omega
    have hfmb : firstMinute mm ≤ kb := firstMinute_le_mem (jsGet_some_mem hgetb)
    have hb : searchBack mm (firstMinute mm) (m - 1) = some (kb, vb) :=
      searchBack_found mm _ hgetb hfmb (m - 1) (by omega)
        (fun k h1 h2 => hgapb k (by omega) h1)
    have ha : searchFwd mm (lastMinute mm) (m + 1) = none :=
      searchFwd_none mm _ _ (fun k h1 _ => habove k (by omega))
    simp only [valueAtMinute, hm, if_neg hm0, hb, ha]
  · intro ka va hgeta hma hgapa hbelow
    have hlma : ka ≤ lastMinute mm := mem_le_lastMinute (jsGet_some_mem hgeta)
    have ha : searchFwd mm (lastMinute mm) (m + 1) = some (ka, va) :=
      searchFwd_found mm _ _ hgeta hlma (by omega)
        (fun k h1 h2 => hgapa k h2 (by omega))
    by_cases hm0 : m = 0
    · subst hm0
      simp only [valueAtMinute, hm, ha, if_true]
    · have hb : searchBack mm (firstMinute mm) (m - 1) = none :=
        searchBack_none mm _ (m - 1) (fun k hk => hbelow k (by omega))
      simp only [valueAtMinute, hm, if_neg hm0, hb, ha]

theorem densifier_nearest_neighbour_witness :
    jsGet (buildMinuteMap [⟨⟨0, 0, 3, 1, 0⟩, 10⟩, ⟨⟨0, 0, 3, 2, 0⟩, 40⟩]) 90 = none ∧
      valueAtMinute (buildMinuteMap [⟨⟨0, 0, 3, 1, 0⟩, 10⟩, ⟨⟨0, 0, 3, 2, 0⟩, 40⟩])
        10 40 90 = 25 := by
  refine ⟨by decide, ?_⟩
  have h := (densifier_nearest_neighbour
      (buildMinuteMap [⟨⟨0, 0, 3, 1, 0⟩, 10⟩, ⟨⟨0, 0, 3, 2, 0⟩, 40⟩]) 10 40 90
      (by decide)).1 60 10 120 40
    (by decide) (by decide) (by decide) (by decide) (by decide) (by decide)
  rw [h]
  norm_num

/-- C6, confirmed: for a minute slot of a day with no sample and no
preceding or following sample within that day, the densifier assigns the
midpoint `(min + max) / 2` of the global minimum and maximum observed by
`getRange` across the whole series — and those are genuinely the attained
minimum and maximum of the series' values. -/
theorem densifier_global_fallback (data : List EnvironmentalData) (gmin gmax : ℚ)
    (mm : List (ℕ × ℚ)) (m : ℕ)
    (hmin : (getRange data).1 = (gmin : WithTop ℚ))
    (hmax : (getRange data).2 = (gmax : WithBot ℚ))
    (hm : jsGet mm m = none)
    (hbelow : ∀ k, k < m → jsGet mm k = none)
    (habove : ∀ k, m < k → jsGet mm k = none) :
    valueAtMinute mm gmin gmax m = (gmin + gmax) / 2 ∧
    (∀ e ∈ data, gmin ≤ e.value ∧ e.value ≤ gmax) ∧
    (∃ e ∈ data, e.value = gmin) ∧ (∃ e ∈ data, e.value = gmax) := by
  rw [getRange_eq_foldl data] at hmin hmax
  simp only at hmin hmax
  refine ⟨?_, ?_, ?_, ?_⟩
  · have ha : searchFwd mm (lastMinute mm) (m + 1) = none :=
      searchFwd_none mm _ _ (fun k h1 _ => habove k (by omega))
    by_cases hm0 : m = 0
    · subst hm0
      simp only [valueAtMinute, hm, ha, if_true]
    · have hb : searchBack mm (firstMinute mm) (m - 1) = none :=
        searchBack_none mm _ (m - 1) (fun k hk => hbelow k (by omega))
      simp only [valueAtMinute, hm, if_neg hm0, hb, ha]
  · intro e he
    constructor
    · have h1 := foldl_min_le_mem_top he (⊤ : WithTop ℚ)
      rw [hmin] at h1
      exact WithTop.coe_le_coe.mp h1
    · have h2 := le_foldl_max_mem_bot he (⊥ : WithBot ℚ)
      rw [hmax] at h2
      exact WithBot.coe_le_coe.mp h2
  · rcases foldl_min_attains_top data ⊤ with h | ⟨e, he, h⟩
    · rw [hmin] at h
      exact absurd h (WithTop.coe_ne_top)
    · rw [hmin] at h
      exact ⟨e, he, (WithTop.coe_inj.mp h).symm⟩
  · rcases foldl_max_attains_bot data ⊥ with h | ⟨e, he, h⟩
    · rw [hmax] at h
      exact absurd h (WithBot.coe_ne_bot)
    · rw [hmax] at h
      exact ⟨e, he, (WithBot.coe_inj.mp h).symm⟩

theorem densifier_global_fallback_witness :
    ((getRange [⟨⟨0, 5, 3, 0, 0⟩, 10⟩, ⟨⟨60000, 5, 3, 0, 1⟩, 30⟩]).1 =
        ((10 : ℚ) : WithTop ℚ)) ∧
      valueAtMinute [] 10 30 0 = 20 := by
  refine ⟨by decide, ?_⟩
  have h := (densifier_global_fallback
    [⟨⟨0, 5, 3, 0, 0⟩, 10⟩, ⟨⟨60000, 5, 3, 0, 1⟩, 30⟩] 10 30
    [] 0 (by decide) (by decide) rfl (fun k hk => absurd hk (Nat.not_lt_zero k))
    (fun k _ => rfl)).1
  rw [h]
  norm_num

/-! ## Lemmas about the JS arithmetic used by `normalizeValue` -/

theorem jsMin_num (a b : ℝ) : jsMin (.num a) (.num b) = .num (min a b) := rfl

theorem jsMax_num (a b : ℝ) : jsMax (.num a) (.num b) = .num (max a b) := rfl

theorem jsSub_num (a b : ℝ) : jsSub (.num a) (.num b) = .num (a - b) := rfl

theorem jsMul_num (a b : ℝ) : jsMul (.num a) (.num b) = .num (a * b) := rfl

theorem jsMin_num_posInf (a : ℝ) : jsMin (.num a) .posInf = .num a := rfl

theorem jsDiv_num (a : ℝ) {b : ℝ} (hb : b ≠ 0) :
    jsDiv (.num a) (.num b) = .num (a / b) := by
  simp [jsDiv, hb]

theorem log10R_pos {x : ℝ} (hx : 0 < x) : log10R x = .num (Real.logb 10 x) := by
  simp [log10R, not_lt.mpr hx.le, hx.ne']

theorem jsLog10_num (x : ℝ) : jsLog10 (.num x) = log10R x := rfl

theorem jsSub_nan_left (x : JSNum) : jsSub .nan x = .nan := by cases x <;> rfl

theorem jsDiv_nan_left (x : JSNum) : jsDiv .nan x = .nan := by cases x <;> rfl

theorem jsMul_nan_num (b : ℝ) : jsMul .nan (.num b) = .nan := rfl

theorem jsMin_num_nan (a : ℝ) : jsMin (.num a) .nan = .nan := rfl

theorem jsMax_num_nan (a : ℝ) : jsMax (.num a) .nan = .nan := rfl

theorem jsLog10_nan : jsLog10 .nan = .nan := rfl

/-- On an actual-number input under a valid descriptor, `normalizeValue`
computes the real-valued normalization `normalizeR`. -/
theorem normalizeValue_num (kind : SensorKind) (minVal maxVal lo hi x : ℝ)
    (hv : ValidDescriptor kind minVal maxVal) :
    normalizeValue (some (.num x)) minVal maxVal lo hi kind =
      .num (normalizeR kind minVal maxVal lo hi x) := by
  obtain ⟨h1, h2, h3⟩ := hv
  cases kind with
  | gas =>
    have hmax : (0.1 : ℝ) < maxVal := h2 rfl
    have hclamp : (0 : ℝ) < max 0.1 (max lo (min hi x)) :=
      lt_of_lt_of_le (by norm_num) (le_max_left _ _)
    have hminpos : (0 : ℝ) < max 0.1 minVal :=
      lt_of_lt_of_le (by norm_num) (le_max_left _ _)
    have hlt : max 0.1 minVal < maxVal := max_lt hmax h1
    have hden : Real.logb 10 maxVal - Real.logb 10 (max 0.1 minVal) ≠ 0 :=
      sub_ne_zero.mpr
        (ne_of_gt (Real.logb_lt_logb (by norm_num) hminpos hlt))
    simp only [normalizeValue, normalizeR, jsMin_num, jsMax_num, jsLog10_num,
      log10R_pos hclamp, log10R_pos hminpos, log10R_pos (lt_trans (by norm_num) hmax),
      jsSub_num, jsDiv_num _ hden, jsMul_num]
  | lux =>
    have hmax : (1 : ℝ) < maxVal := h3 rfl
    have hclamp : (0 : ℝ) < max 1 (max lo (min hi x)) :=
      lt_of_lt_of_le (by norm_num) (le_max_left _ _)
    have hminpos : (0 : ℝ) < max 1 minVal :=
      lt_of_lt_of_le (by norm_num) (le_max_left _ _)
    have hlt : max 1 minVal < maxVal := max_lt hmax h1
    have hden : Real.logb 10 maxVal - Real.logb 10 (max 1 minVal) ≠ 0 :=
      sub_ne_zero.mpr
        (ne_of_gt (Real.logb_lt_logb (by norm_num) hminpos hlt))
    simp only [normalizeValue, normalizeR, jsMin_num, jsMax_num, jsLog10_num,
      log10R_pos hclamp, log10R_pos hminpos, log10R_pos (lt_trans (by norm_num) hmax),
      jsSub_num, jsDiv_num _ hden, jsMul_num]
  | uv =>
    have hden : maxVal - minVal ≠ 0 := sub_ne_zero.mpr h1.ne'
    simp only [normalizeValue, normalizeR, jsMin_num, jsMax_num, jsSub_num,
      jsDiv_num _ hden, jsMul_num]
  | motion =>
    have hden : maxVal - minVal ≠ 0 := sub_ne_zero.mpr h1.ne'
    simp only [normalizeValue, normalizeR, jsMin_num, jsMax_num, jsSub_num,
      jsDiv_num _ hden, jsMul_num]
  | other =>
    have hden : maxVal - minVal ≠ 0 := sub_ne_zero.mpr h1.ne'
    simp only [normalizeValue, normalizeR, jsMin_num, jsMax_num, jsSub_num,
      jsDiv_num _ hden, jsMul_num]

/-- A `NaN` input propagates through every branch of `normalizeValue`. -/
theorem normalizeValue_nan (kind : SensorKind) (minVal maxVal lo hi : ℝ) :
    normalizeValue (some .nan) minVal maxVal lo hi kind = .nan := by
  cases kind <;>
    simp only [normalizeValue, jsMin_num_nan, jsMax_num_nan, jsLog10_nan,
      jsSub_nan_left, jsDiv_nan_left, jsMul_nan_num]

/-- An `Infinity` input is clamped to the top of the sensor range, behaving
exactly like the input `rangeHi`. -/
theorem normalizeValue_posInf (kind : SensorKind) (minVal maxVal lo hi : ℝ) :
    normalizeValue (some .posInf) minVal maxVal lo hi kind =
      normalizeValue (some (.num hi)) minVal maxVal lo hi kind := by
  cases kind <;>
    simp only [normalizeValue, jsMin_num, jsMax_num, jsMin_num_posInf, min_self]

theorem normalizeR_bounds (kind : SensorKind) (minVal maxVal lo hi x : ℝ) :
    0 ≤ normalizeR kind minVal maxVal lo hi x ∧
      normalizeR kind minVal maxVal lo hi x ≤ 100 := by
  cases kind <;>
    exact ⟨le_max_left _ _, max_le (by norm_num) (min_le_left _ _)⟩

theorem normalizeR_mono (kind : SensorKind) (minVal maxVal lo hi : ℝ)
    (hv : ValidDescriptor kind minVal maxVal) {x y : ℝ} (hxy : x ≤ y) :
    normalizeR kind minVal maxVal lo hi x ≤ normalizeR kind minVal maxVal lo hi y := by
  obtain ⟨h1, h2, h3⟩ := hv
  have hc : max lo (min hi x) ≤ max lo (min hi y) :=
    max_le_max le_rfl (min_le_min le_rfl hxy)
  cases kind with
  | gas =>
    have hmax : (0.1 : ℝ) < maxVal := h2 rfl
    have hminpos : (0 : ℝ) < max 0.1 minVal :=
      lt_of_lt_of_le (by norm_num) (le_max_left _ _)
    have hD : 0 < Real.logb 10 maxVal - Real.logb 10 (max 0.1 minVal) :=
      sub_pos.mpr (Real.logb_lt_logb (by norm_num) hminpos (max_lt hmax h1))
    have hcx : (0 : ℝ) < max 0.1 (max lo (min hi x)) :=
      lt_of_lt_of_le (by norm_num) (le_max_left _ _)
    have hlogb : Real.logb 10 (max 0.1 (max lo (min hi x))) ≤
        Real.logb 10 (max 0.1 (max lo (min hi y))) :=
      Real.logb_le_logb_of_le (by norm_num) hcx (max_le_max le_rfl hc)
    simp only [normalizeR]
    refine max_le_max le_rfl (min_le_min le_rfl ?_)
    refine mul_le_mul_of_nonneg_right ?_ (by norm_num)
    exact (div_le_div_iff_of_pos_right hD).mpr (sub_le_sub_right hlogb _)
  | lux =>
    have hmax : (1 : ℝ) < maxVal := h3 rfl
    have hminpos : (0 : ℝ) < max 1 minVal :=
      lt_of_lt_of_le (by norm_num) (le_max_left _ _)
    have hD : 0 < Real.logb 10 maxVal - Real.logb 10 (max 1 minVal) :=
      sub_pos.mpr (Real.logb_lt_logb (by norm_num) hminpos (max_lt hmax h1))
    have hcx : (0 : ℝ) < max 1 (max lo (min hi x)) :=
      lt_of_lt_of_le (by norm_num) (le_max_left _ _)
    have hlogb : Real.logb 10 (max 1 (max lo (min hi x))) ≤
        Real.logb 10 (max 1 (max lo (min hi y))) :=
      Real.logb_le_logb_of_le (by norm_num) hcx (max_le_max le_rfl hc)
    simp only [normalizeR]
    refine max_le_max le_rfl (min_le_min le_rfl ?_)
    refine mul_le_mul_of_nonneg_right ?_ (by norm_num)
    exact (div_le_div_iff_of_pos_right hD).mpr (sub_le_sub_right hlogb _)
  | uv =>
    have hD : 0 < maxVal - minVal := sub_pos.mpr h1
    simp only [normalizeR]
    refine max_le_max le_rfl (min_le_min le_rfl ?_)
    refine mul_le_mul_of_nonneg_right ?_ (by norm_num)
    exact (div_le_div_iff_of_pos_right hD).mpr (sub_le_sub_right hc _)
  | motion =>
    have hD : 0 < maxVal - minVal := sub_pos.mpr h1
    simp only [normalizeR]
    refine max_le_max le_rfl (min_le_min le_rfl ?_)
    refine mul_le_mul_of_nonneg_right ?_ (by norm_num)
    exact (div_le_div_iff_of_pos_right hD).mpr (sub_le_sub_right hc _)
  | other =>
    have hD : 0 < maxVal - minVal := sub_pos.mpr h1
    simp only [normalizeR]
    refine max_le_max le_rfl (min_le_min le_rfl ?_)
    refine mul_le_mul_of_nonneg_right ?_ (by norm_num)
    exact (div_le_div_iff_of_pos_right hD).mpr (sub_le_sub_right hc _)

/-! ## Claims about the normalizer -/

/-- C7, counterexample: a `NaN` input does not normalize to `0` — the
`value == null` guard does not catch `NaN`, which instead propagates
through clamp, divide and the final clamps, so the function returns `NaN`. -/
theorem normalize_nan_counterexample :
    normalizeValue (some .nan) 0 100 0 100 .other ≠ .num 0 := by
  rw [normalizeValue_nan]
  exact fun h => JSNum.noConfusion h

/-- C7, amended: for every actual-number input and valid descriptor the
result is a number in `[0, 100]`, and a `null` input returns `0`; but of the
invalid inputs only `null` maps to `0` — `NaN` propagates to `NaN`, and
`Infinity` is clamped to the top of the sensor range like the finite input
`rangeHi` (the function still never throws). -/
theorem normalize_bounded :
    (∀ (kind : SensorKind) (minVal maxVal lo hi x : ℝ),
      ValidDescriptor kind minVal maxVal →
      ∃ r : ℝ, normalizeValue (some (.num x)) minVal maxVal lo hi kind = .num r ∧
        0 ≤ r ∧ r ≤ 100) ∧
    (∀ (kind : SensorKind) (minVal maxVal lo hi : ℝ),
      normalizeValue none minVal maxVal lo hi kind = .num 0) ∧
    (∀ (kind : SensorKind) (minVal maxVal lo hi : ℝ),
      normalizeValue (some .nan) minVal maxVal lo hi kind = .nan) ∧
    (∀ (kind : SensorKind) (minVal maxVal lo hi : ℝ),
      normalizeValue (some .posInf) minVal maxVal lo hi kind =
        normalizeValue (some (.num hi)) minVal maxVal lo hi kind) := by
  refine ⟨?_, ?_, normalizeValue_nan, normalizeValue_posInf⟩
  · intro kind minVal maxVal lo hi x hv
    exact ⟨_, normalizeValue_num kind minVal maxVal lo hi x hv,
      (normalizeR_bounds kind minVal maxVal lo hi x).1,
      (normalizeR_bounds kind minVal maxVal lo hi x).2⟩
  · intro kind minVal maxVal lo hi
    rfl

theorem normalize_bounded_witness :
    ValidDescriptor .other 0 100 ∧
      ∃ r : ℝ, normalizeValue (some (.num 50)) 0 100 0 100 .other = .num r ∧
        0 ≤ r ∧ r ≤ 100 :=
  have hv : ValidDescriptor .other 0 100 :=
    ⟨by norm_num, fun h => absurd h (by decide), fun h => absurd h (by decide)⟩
  ⟨hv, normalize_bounded.1 .other 0 100 0 100 50 hv⟩

/-- C8, confirmed: normalization is monotone.  For a fixed branch and fixed
valid observed min/max, an actual-number input `x < y` yields
`normalize(x) ≤ normalize(y)`, on the linear branches (uv, the motion
family, default) and on the logarithmic branches (gas, lux) alike. -/
theorem normalize_monotone (kind : SensorKind) (minVal maxVal lo hi x y : ℝ)
    (hv : ValidDescriptor kind minVal maxVal) (hxy : x < y) :
    ∃ rx ry : ℝ,
      normalizeValue (some (.num x)) minVal maxVal lo hi kind = .num rx ∧
      normalizeValue (some (.num y)) minVal maxVal lo hi kind = .num ry ∧
      rx ≤ ry :=
  ⟨_, _, normalizeValue_num kind minVal maxVal lo hi x hv,
    normalizeValue_num kind minVal maxVal lo hi y hv,
    normalizeR_mono kind minVal maxVal lo hi hv hxy.le⟩

theorem normalize_monotone_witness :
    (ValidDescriptor .other 0 100 ∧ (10 : ℝ) < 20) ∧
      ∃ rx ry : ℝ,
        normalizeValue (some (.num 10)) 0 100 0 100 .other = .num rx ∧
        normalizeValue (some (.num 20)) 0 100 0 100 .other = .num ry ∧
        rx ≤ ry :=
  have hv : ValidDescriptor .other 0 100 :=
    ⟨by norm_num, fun h => absurd h (by decide), fun h => absurd h (by decide)⟩
  ⟨⟨hv, by norm_num⟩, normalize_monotone .other 0 100 0 100 10 20 hv (by norm_num)⟩

end OfficeSpace
